import Mathlib

/-!
# Verification of the Loveletter message relay core

Shallow embedding of the Loveletter server (`src/padlock.rs`,
`src/errors.rs`, `src/inputs.rs`, `src/clientinp.rs`) and proofs of the
specification's claims about it.

Bytes are modelled as `List Nat` (each entry a byte value).  The external
`ring` cryptographic primitives (AES-256-GCM, HMAC-SHA256) are not code of
this repository; they are modelled as ideal primitives (see `gcmSeal`,
`gcmOpen`, `hmacSign`): sealing appends a 16-byte deterministic tag binding
the nonce and the sealed buffer, opening strips and checks that tag, and the
MAC is an ideal (collision-free) keyed tag.  Everything `padlock.rs` and
`clientinp.rs` do *around* those primitives — the buffer resize before
sealing, the nonce prepend, the length checks, the state machine — is
translated directly from the source.
-/

/-- Model of `ring::aead::NONCE_LEN` for AES-256-GCM: 12 bytes. -/
def NONC_LEN : Nat := 12

/-- AES-GCM authentication tag length: 16 bytes. -/
def TAG_LEN : Nat := 16

/-- Ideal model of the 16-byte AES-GCM authentication tag over a nonce and
a buffer: a deterministic value binding both.  Only its length and the fact
that `gcmOpen` checks it matter to the claims. -/
def gcmTag (nonce buf : List Nat) : List Nat :=
  List.replicate (TAG_LEN - 1) 0 ++ [(nonce.sum + 31 * buf.sum + buf.length) % 256]

/-- Ideal model of `seal_in_place_append_tag`: the sealed output is the
input buffer (ideal-permutation confidentiality is irrelevant to the
claims) with the 16-byte tag appended, exactly as the `ring` call appends
its tag to `in_out`. -/
def gcmSeal (nonce buf : List Nat) : List Nat :=
  buf ++ gcmTag nonce buf

/-- Ideal model of `open_in_place`: split off the trailing 16-byte tag,
recompute it over the body under the given nonce, and return the body only
when it matches; fail on inputs shorter than a tag. -/
def gcmOpen (nonce data : List Nat) : Option (List Nat) :=
  if data.length < TAG_LEN then none
  else
    let body := data.take (data.length - TAG_LEN)
    let tag := data.drop (data.length - TAG_LEN)
    if tag = gcmTag nonce body then some body else none

/-- Ideal model of HMAC-SHA256 (`ring::hmac::sign`): an ideal collision-free
keyed MAC, modelled as the identity tag (the real tag is a fixed-length
digest; only injectivity w.h.p. matters to the claims). -/
def hmacSign (data : List Nat) : List Nat := data

/-- Model of `ring::hmac::verify(...).is_ok()`: recompute the tag and compare. -/
def hmacVerify (data tag : List Nat) : Bool := hmacSign data == tag

/-- Translation of `Padlock::encrypt` from `src/padlock.rs`, with the random nonce made an
explicit argument (the source draws it from `SystemRandom`).  The source
copies the plaintext into `in_out`, then `in_out.resize(in_out.len() + 16, 0)`
appends sixteen zero bytes (the comment says "16 bytes for GCM tag"), then
`seal_in_place_append_tag` seals *that* buffer and appends the real tag;
finally the nonce is prepended. -/
def Padlock.encrypt (nonce plaintext : List Nat) : List Nat :=
  let in_out := plaintext ++ List.replicate 16 0
  nonce ++ gcmSeal nonce in_out

/-- Translation of `Padlock::decrypt` from `src/padlock.rs`: reject inputs shorter than
`NONCE_LEN + 16`, split off the 12-byte nonce, and open the rest under it.
(`Nonce::try_assume_unique_for_key` cannot fail here because the split
yields exactly 12 bytes.) -/
def Padlock.decrypt (ciphertext : List Nat) : Option (List Nat) :=
  if ciphertext.length < NONC_LEN + 16 then none
  else
    let nonce_bytes := ciphertext.take NONC_LEN
    let encrypted := ciphertext.drop NONC_LEN
    gcmOpen nonce_bytes encrypted

/-- Translation of `Padlock::compute_hmac` from `src/padlock.rs`. -/
def Padlock.compute_hmac (data : List Nat) : List Nat := hmacSign data

/-- Translation of `Padlock::verify_hmac` from `src/padlock.rs`. -/
def Padlock.verify_hmac (data expected_tag : List Nat) : Bool :=
  hmacVerify data expected_tag

/-- Opening a sealed buffer under the same nonce returns the buffer. -/
theorem gcmOpen_gcmSeal (nonce buf : List Nat) :
    gcmOpen nonce (gcmSeal nonce buf) = some buf := by
  unfold gcmOpen gcmSeal
  have hlen : (buf ++ gcmTag nonce buf).length = buf.length + TAG_LEN := by
    simp [gcmTag, TAG_LEN]
  rw [hlen]
  have h16 : ¬ buf.length + TAG_LEN < TAG_LEN := by omega
  rw [if_neg h16]
  have htake : (buf ++ gcmTag nonce buf).take (buf.length + TAG_LEN - TAG_LEN) = buf := by
    simp
  have hdrop : (buf ++ gcmTag nonce buf).drop (buf.length + TAG_LEN - TAG_LEN) =
      gcmTag nonce buf := by
    simp
  simp only [htake, hdrop, if_pos rfl]
  simp

/-- What `decrypt ∘ encrypt` actually returns: the plaintext followed by the
sixteen zero bytes that `encrypt` folded into the sealed buffer. -/
theorem decrypt_encrypt (nonce plaintext : List Nat) (hn : nonce.length = NONC_LEN) :
    Padlock.decrypt (Padlock.encrypt nonce plaintext) =
      some (plaintext ++ List.replicate 16 0) := by
  unfold Padlock.decrypt Padlock.encrypt
  have hlen : (nonce ++ gcmSeal nonce (plaintext ++ List.replicate 16 0)).length =
      NONC_LEN + (plaintext.length + 16 + TAG_LEN) := by
    simp [gcmSeal, gcmTag, hn, TAG_LEN]
  rw [hlen]
  have hge : ¬ NONC_LEN + (plaintext.length + 16 + TAG_LEN) < NONC_LEN + 16 := by
    simp [NONC_LEN, TAG_LEN]
    omega
  rw [if_neg hge]
  have htake : (nonce ++ gcmSeal nonce (plaintext ++ List.replicate 16 0)).take NONC_LEN
      = nonce := by
    rw [← hn]
    exact List.take_left _ _
  have hdrop : (nonce ++ gcmSeal nonce (plaintext ++ List.replicate 16 0)).drop NONC_LEN
      = gcmSeal nonce (plaintext ++ List.replicate 16 0) := by
    rw [← hn]
    exact List.drop_left _ _
  simp only [htake, hdrop]
  exact gcmOpen_gcmSeal _ _

/-- Translation of `AppError` from `src/errors.rs`. -/
inductive AppError where
  | UserNotFound
  | UsernameTaken
  | InvalidCredentials
  | MessageNotFound
  | Internal (msg : String)
deriving DecidableEq, Repr

deriving instance DecidableEq for Except

/-- Translation of `UserMessage` from `src/inputs.rs`.  The source's `from` field is named
`sender` here (`from` is a Lean keyword); ids come from `Uuid::new_v4` in
the source and are modelled as the store's monotonic counter value (the
spec requires only uniqueness of ids, not a specific generator). -/
structure UserMessage where
  id : Nat
  sender : String
  recipient : String
  body_enc : List Nat
  body_hash : List Nat
deriving DecidableEq, Repr

/-- Translation of `ServerCommand` from `src/inputs.rs` (field `from` renamed `sender`). -/
inductive ServerCommand where
  | SignUp (username password : String)
  | SignIn (username password : String)
  | SignOut (username : String)
  | SendMessage (sender recipient body : String)
  | FetchMessages (username : String)
  | DeleteMessage (username : String) (msg_id : Nat)
deriving DecidableEq, Repr

/-- One element of the list `fetch_messages` builds: the source formats each
as a string `"MsgID: .., From: .., Body: .."`, appending
`" [WARNING: HMAC verification failed!]"` when `valid_hash` is false, or
`"MsgID: .., [ERROR decrypting message]"` when decryption fails.  Modelled
structurally: `decoded` carries the id, the sender, the decrypted bytes
(the source renders them with `from_utf8_lossy`) and the `valid_hash` flag
(`false` ⇔ the warning suffix is present); `decodeErr` is the decrypt-error
marker line. -/
inductive FetchEntry where
  | decoded (id : Nat) (sender : String) (body : List Nat) (hmac_valid : Bool)
  | decodeErr (id : Nat)
deriving DecidableEq, Repr

/-- The `Some(String)` payload of a successful command: plain confirmation
text, or (for `FetchMessages`) the list the source serializes to JSON,
kept structural here. -/
inductive Output where
  | text (s : String)
  | fetched (entries : List FetchEntry)
deriving DecidableEq, Repr

/-- Translation of `ServerInner` from `src/clientinp.rs`: the `users` HashMap is modelled
as an association list (first binding wins), the `logged_in_users` HashSet
as a duplicate-free-by-insertion list, and the per-process `Padlock` keys
are implicit in the ideal crypto model.  `next_id` is the id/nonce counter
modelling the source's random Uuid and nonce draws. -/
structure ServerInner where
  users : List (String × String)
  logged_in_users : List String
  messages : List UserMessage
  next_id : Nat
deriving DecidableEq, Repr

/-- Translation of `ServerState::new` from `src/clientinp.rs`: all collections empty. -/
def ServerState.new : ServerInner := ⟨[], [], [], 0⟩

/-- UTF-8 bytes of a string (`body.as_bytes()` in the source), modelled as
the code points — identical to UTF-8 on the ASCII strings the claims use. -/
def strBytes (s : String) : List Nat := s.data.map Char.toNat

/-- The fresh random nonce `Padlock::encrypt` draws, modelled as a
deterministic function of the state's counter. -/
def nonceOf (n : Nat) : List Nat := List.replicate NONC_LEN (n % 256)

/-- Result of one command: the `AppResult<Option<String>>` plus the state
after the mutex guard is dropped. -/
abbrev ProcResult := Except AppError (Option Output) × ServerInner

/-- Translation of `sign_up` from `src/clientinp.rs`: error `UsernameTaken` when the
username is already a key, otherwise insert the binding. -/
def sign_up (username password : String) (st : ServerInner) : ProcResult :=
  if (st.users.lookup username).isSome then
    (Except.error AppError.UsernameTaken, st)
  else
    (Except.ok (some (Output.text "User created")),
     { st with users := (username, password) :: st.users })

/-- Model of `HashSet::insert`: idempotent insertion into the logged-in set. -/
def markActive (username : String) (s : List String) : List String :=
  if username ∈ s then s else username :: s

/-- Translation of `sign_in` from `src/clientinp.rs`: `UserNotFound` when the username is
absent, `InvalidCredentials` on password mismatch, else insert into
`logged_in_users`. -/
def sign_in (username password : String) (st : ServerInner) : ProcResult :=
  match st.users.lookup username with
  | none => (Except.error AppError.UserNotFound, st)
  | some stored_pass =>
    if stored_pass ≠ password then
      (Except.error AppError.InvalidCredentials, st)
    else
      (Except.ok (some (Output.text (username ++ " signed in"))),
       { st with logged_in_users := markActive username st.logged_in_users })

/-- Translation of `sign_out` from `src/clientinp.rs`: `HashSet::remove` (idempotent) and
always `Ok`. -/
def sign_out (username : String) (st : ServerInner) : ProcResult :=
  (Except.ok (some (Output.text (username ++ " signed out"))),
   { st with logged_in_users := st.logged_in_users.filter (fun x => x != username) })

/-- Translation of `send_message` from `src/clientinp.rs`: gate on the sender being logged
in, encrypt the body, MAC the plaintext, append the record. -/
def send_message (sender recipient body : String) (st : ServerInner) : ProcResult :=
  if sender ∈ st.logged_in_users then
    let ciphertext := Padlock.encrypt (nonceOf st.next_id) (strBytes body)
    let digest := Padlock.compute_hmac (strBytes body)
    let msg : UserMessage :=
      { id := st.next_id, sender := sender, recipient := recipient,
        body_enc := ciphertext, body_hash := digest }
    (Except.ok (some (Output.text "Message sent")),
     { st with messages := st.messages ++ [msg], next_id := st.next_id + 1 })
  else
    (Except.error AppError.InvalidCredentials, st)

/-- The per-message body of `fetch_messages`' loop: decrypt, and on success
verify the plaintext MAC against the stored digest. -/
def fetchEntryOf (m : UserMessage) : FetchEntry :=
  match Padlock.decrypt m.body_enc with
  | some decrypted_bytes =>
      FetchEntry.decoded m.id m.sender decrypted_bytes
        (Padlock.verify_hmac decrypted_bytes m.body_hash)
  | none => FetchEntry.decodeErr m.id

/-- The list `fetch_messages` builds: every stored message whose `recipient` field
is the requester, in store (insertion) order, each mapped through the loop
body. -/
def fetch_results (username : String) (st : ServerInner) : List FetchEntry :=
  (st.messages.filter (fun m => m.recipient == username)).map fetchEntryOf

/-- Translation of `fetch_messages` from `src/clientinp.rs`: gate on the requester being
logged in, then return the per-message results; the state is only read. -/
def fetch_messages (username : String) (st : ServerInner) : ProcResult :=
  if username ∈ st.logged_in_users then
    (Except.ok (some (Output.fetched (fetch_results username st))), st)
  else
    (Except.error AppError.InvalidCredentials, st)

/-- Translation of `delete_message` from `src/clientinp.rs`: gate on the requester being
logged in; `retain` keeps every message that is not both addressed to the
requester and carrying the requested id; `MessageNotFound` when the length
did not change. -/
def delete_message (username : String) (msg_id : Nat) (st : ServerInner) : ProcResult :=
  if username ∈ st.logged_in_users then
    let remaining := st.messages.filter (fun m => !(m.recipient == username && m.id == msg_id))
    if remaining.length == st.messages.length then
      (Except.error AppError.MessageNotFound, { st with messages := remaining })
    else
      (Except.ok (some (Output.text ("Deleted message " ++ toString msg_id))),
       { st with messages := remaining })
  else
    (Except.error AppError.InvalidCredentials, st)

/-- Translation of `process_client` from `src/clientinp.rs`: dispatch on the command. -/
def process_client (cmd : ServerCommand) (st : ServerInner) : ProcResult :=
  match cmd with
  | ServerCommand.SignUp username password => sign_up username password st
  | ServerCommand.SignIn username password => sign_in username password st
  | ServerCommand.SignOut username => sign_out username st
  | ServerCommand.SendMessage sender recipient body => send_message sender recipient body st
  | ServerCommand.FetchMessages username => fetch_messages username st
  | ServerCommand.DeleteMessage username msg_id => delete_message username msg_id st

/-- States reachable from `ServerState::new` by processing commands. -/
inductive Reachable : ServerInner → Prop where
  | init : Reachable ServerState.new
  | step (cmd : ServerCommand) {st : ServerInner} :
      Reachable st → Reachable (process_client cmd st).2

/-- The id carried by a fetch-result entry (both variants print `MsgID`). -/
def entryId : FetchEntry → Nat
  | FetchEntry.decoded i _ _ _ => i
  | FetchEntry.decodeErr i => i

/-- Whether a fetch-result entry is the decrypt-error marker. -/
def isDecodeErr : FetchEntry → Bool
  | FetchEntry.decoded _ _ _ _ => false
  | FetchEntry.decodeErr _ => true

theorem lookup_isSome_cons (u v p : String) (l : List (String × String))
    (h : (List.lookup u l).isSome) : (List.lookup u ((v, p) :: l)).isSome := by
  simp only [List.lookup]
  cases hb : u == v <;> simp [h]

theorem mem_markActive_self (u : String) (s : List String) : u ∈ markActive u s := by
  unfold markActive
  split <;> simp_all

theorem mem_markActive_of_mem (u w : String) (s : List String) (h : w ∈ s) :
    w ∈ markActive u s := by
  unfold markActive
  split <;> simp_all

theorem mem_of_mem_markActive (u w : String) (s : List String) (h : w ∈ markActive u s) :
    w = u ∨ w ∈ s := by
  unfold markActive at h
  split at h <;> simp_all

/-- C10: `FetchMessages` never mutates the state — the directory, the
logged-in set, the message store (every stored ciphertext and MAC
included) are identical before and after, whether the requester is active
or not. -/
theorem fetch_messages_nondestructive (st : ServerInner) (username : String) :
    (process_client (ServerCommand.FetchMessages username) st).2 = st := by
  simp only [process_client, fetch_messages]
  split <;> rfl

/-- C8: `SignOut` always succeeds (never returns an error), removing the
username from the logged-in set; when the username has no active session
the whole state is unchanged — a no-op, not an error. -/
theorem sign_out_idempotent (st : ServerInner) (username : String) :
    process_client (ServerCommand.SignOut username) st =
      (Except.ok (some (Output.text (username ++ " signed out"))),
       { st with logged_in_users := st.logged_in_users.filter (fun x => x != username) }) ∧
    (username ∉ st.logged_in_users →
      (process_client (ServerCommand.SignOut username) st).2 = st) := by
  constructor
  · rfl
  · intro h
    simp only [process_client, sign_out]
    have : st.logged_in_users.filter (fun x => x != username) = st.logged_in_users := by
      rw [List.filter_eq_self]
      intro a ha
      simp only [bne_iff_ne, ne_eq, decide_eq_true_eq]
      exact fun hh => h (hh ▸ ha)
    rw [this]

/-- C8 witness: signing out "charlie", who never signed in, on the initial
state succeeds and leaves the state unchanged. -/
theorem sign_out_idempotent_witness :
    ("charlie" ∉ ServerState.new.logged_in_users) ∧
    (process_client (ServerCommand.SignOut "charlie") ServerState.new).2 = ServerState.new :=
  ⟨by decide, (sign_out_idempotent ServerState.new "charlie").2 (by decide)⟩

/-- C5: `SignUp` fails with `UsernameTaken` exactly when the username is
already a key of the directory, leaving the whole state unchanged;
otherwise it inserts the binding.  In particular a second `SignUp` for a
username whose first `SignUp` succeeded fails with `UsernameTaken`. -/
theorem sign_up_uniqueness (st : ServerInner) (username password : String) :
    ((st.users.lookup username).isSome →
      process_client (ServerCommand.SignUp username password) st =
        (Except.error AppError.UsernameTaken, st)) ∧
    (¬(st.users.lookup username).isSome →
      process_client (ServerCommand.SignUp username password) st =
        (Except.ok (some (Output.text "User created")),
         { st with users := (username, password) :: st.users })) ∧
    (∀ q out st', process_client (ServerCommand.SignUp username password) st =
        (Except.ok out, st') →
      (process_client (ServerCommand.SignUp username q) st').1 =
        Except.error AppError.UsernameTaken) := by
  refine ⟨?_, ?_, ?_⟩
  · intro h
    simp [process_client, sign_up, h]
  · intro h
    simp [process_client, sign_up, h]
  · intro q out st' h
    simp only [process_client, sign_up] at h ⊢
    split at h
    · exact absurd h (by simp)
    · have hst' : st' = { st with users := (username, password) :: st.users } :=
        (congrArg Prod.snd h).symm
      subst hst'
      simp [List.lookup]

/-- C5 witness: on the initial state, registering "alice" succeeds, and
re-registering "alice" with a different password then fails with
`UsernameTaken`. -/
theorem sign_up_uniqueness_witness :
    (process_client
        (ServerCommand.SignUp "alice" "pw2")
        (process_client (ServerCommand.SignUp "alice" "pw1") ServerState.new).2).1 =
      Except.error AppError.UsernameTaken :=
  (sign_up_uniqueness ServerState.new "alice" "pw1").2.2 "pw2"
    (some (Output.text "User created"))
    (process_client (ServerCommand.SignUp "alice" "pw1") ServerState.new).2 rfl

/-- C9: for an active sender, `SendMessage` succeeds and appends the
record, for every recipient string whatsoever — the success branch places
no condition on the recipient, so no directory or session check on the
recipient is ever performed. -/
theorem send_message_unchecked_recipient (st : ServerInner)
    (sender recipient body : String) (hact : sender ∈ st.logged_in_users) :
    process_client (ServerCommand.SendMessage sender recipient body) st =
      (Except.ok (some (Output.text "Message sent")),
       { st with
          messages := st.messages ++
            [{ id := st.next_id, sender := sender, recipient := recipient,
               body_enc := Padlock.encrypt (nonceOf st.next_id) (strBytes body),
               body_hash := Padlock.compute_hmac (strBytes body) }],
          next_id := st.next_id + 1 }) := by
  simp [process_client, send_message, hact]

/-- C9 witness: alice (active) sends to "ghost", a recipient that is
neither registered nor active; the send still succeeds and stores the
record. -/
theorem send_message_unchecked_recipient_witness :
    (let stW : ServerInner := ⟨[("alice", "pw")], ["alice"], [], 0⟩
     stW.users.lookup "ghost" = none ∧ "ghost" ∉ stW.logged_in_users ∧
     process_client (ServerCommand.SendMessage "alice" "ghost" "hi") stW =
       (Except.ok (some (Output.text "Message sent")),
        { stW with
           messages := [{ id := 0, sender := "alice", recipient := "ghost",
                          body_enc := Padlock.encrypt (nonceOf 0) (strBytes "hi"),
                          body_hash := Padlock.compute_hmac (strBytes "hi") }],
           next_id := 1 })) :=
  ⟨by decide, by decide,
   send_message_unchecked_recipient ⟨[("alice", "pw")], ["alice"], [], 0⟩
     "alice" "ghost" "hi" (by decide)⟩

/-- C3: `SendMessage` from a username with no active session fails with
`InvalidCredentials` leaving the state (store included) unchanged; and
whenever a `SignIn` for that username succeeds, the same `SendMessage`
processed on the resulting state succeeds and appends one record. -/
theorem send_message_authorization (st : ServerInner)
    (sender recipient body : String) :
    (sender ∉ st.logged_in_users →
      process_client (ServerCommand.SendMessage sender recipient body) st =
        (Except.error AppError.InvalidCredentials, st)) ∧
    (∀ password out st',
      process_client (ServerCommand.SignIn sender password) st = (Except.ok out, st') →
      ∃ st'', process_client (ServerCommand.SendMessage sender recipient body) st' =
          (Except.ok (some (Output.text "Message sent")), st'') ∧
        st''.messages.length = st'.messages.length + 1) := by
  constructor
  · intro h
    simp [process_client, send_message, h]
  · intro password out st' h
    simp only [process_client, sign_in] at h
    split at h
    · exact absurd h (by simp)
    · split at h
      · exact absurd h (by simp)
      · have hst' : st' = { st with logged_in_users := markActive sender st.logged_in_users } :=
          (congrArg Prod.snd h).symm
        subst hst'
        have hmem : sender ∈ markActive sender st.logged_in_users :=
          mem_markActive_self sender st.logged_in_users
        refine ⟨{ st with
                    logged_in_users := markActive sender st.logged_in_users,
                    messages := st.messages ++
                      [{ id := st.next_id, sender := sender, recipient := recipient,
                         body_enc := Padlock.encrypt (nonceOf st.next_id) (strBytes body),
                         body_hash := Padlock.compute_hmac (strBytes body) }],
                    next_id := st.next_id + 1 }, ?_, ?_⟩
        · simp [process_client, send_message, hmem]
        · simp

/-- C3 witness: on a state where "alice" is registered but not signed in,
her `SendMessage` fails with `InvalidCredentials`; and a successful
`SignIn` makes the same `SendMessage` succeed. -/
theorem send_message_authorization_witness :
    (let stW : ServerInner := ⟨[("alice", "pw")], [], [], 0⟩
     process_client (ServerCommand.SendMessage "alice" "bob" "hi") stW =
       (Except.error AppError.InvalidCredentials, stW) ∧
     ∃ st'', process_client (ServerCommand.SendMessage "alice" "bob" "hi")
           (process_client (ServerCommand.SignIn "alice" "pw") stW).2 =
         (Except.ok (some (Output.text "Message sent")), st'') ∧
       st''.messages.length =
         (process_client (ServerCommand.SignIn "alice" "pw") stW).2.messages.length + 1) :=
  ⟨(send_message_authorization ⟨[("alice", "pw")], [], [], 0⟩ "alice" "bob" "hi").1 (by decide),
   (send_message_authorization ⟨[("alice", "pw")], [], [], 0⟩ "alice" "bob" "hi").2
     "pw" (some (Output.text ("alice" ++ " signed in")))
     (process_client (ServerCommand.SignIn "alice" "pw") ⟨[("alice", "pw")], [], [], 0⟩).2 rfl⟩

theorem delete_message_store (st : ServerInner) (username : String) (msg_id : Nat)
    (hact : username ∈ st.logged_in_users) :
    (process_client (ServerCommand.DeleteMessage username msg_id) st).2.messages =
      st.messages.filter (fun m => !(m.recipient == username && m.id == msg_id)) := by
  simp only [process_client, delete_message, if_pos hact]
  split <;> rfl

/-- C4: for an active requester, `DeleteMessage` removes a stored message
only when that message is addressed to the requester and carries the
requested id; when no stored message satisfies both conditions (including
an id belonging to another user's message) it fails with `MessageNotFound`
and the state — store included — is unchanged; and nothing not already
stored ever appears. -/
theorem delete_message_ownership (st : ServerInner) (username : String) (msg_id : Nat)
    (hact : username ∈ st.logged_in_users) :
    ((∀ m ∈ st.messages, ¬(m.recipient = username ∧ m.id = msg_id)) →
      process_client (ServerCommand.DeleteMessage username msg_id) st =
        (Except.error AppError.MessageNotFound, st)) ∧
    (∀ m ∈ st.messages,
      m ∉ (process_client (ServerCommand.DeleteMessage username msg_id) st).2.messages →
      m.recipient = username ∧ m.id = msg_id) ∧
    (∀ m, m ∈ (process_client (ServerCommand.DeleteMessage username msg_id) st).2.messages →
      m ∈ st.messages) := by
  refine ⟨?_, ?_, ?_⟩
  · intro hnone
    have hfix : st.messages.filter (fun m => !(m.recipient == username && m.id == msg_id)) =
        st.messages := by
      rw [List.filter_eq_self]
      intro m hm
      have := hnone m hm
      simp only [Bool.not_eq_true', Bool.and_eq_true, beq_iff_eq] at *
      by_cases h1 : m.recipient = username <;> by_cases h2 : m.id = msg_id <;> simp_all
    simp only [process_client, delete_message, if_pos hact, hfix]
    rw [if_pos (by simp)]
  · intro m hm hnot
    rw [delete_message_store st username msg_id hact] at hnot
    have : ¬(!(m.recipient == username && m.id == msg_id)) = true := by
      intro hp
      exact hnot (List.mem_filter.mpr ⟨hm, hp⟩)
    simp only [Bool.not_eq_true', Bool.not_eq_false, Bool.and_eq_true, beq_iff_eq] at this
    exact this
  · intro m hm
    rw [delete_message_store st username msg_id hact] at hm
    exact (List.mem_filter.mp hm).1

/-- C4 witness: with a message stored for "bob" and "carol" active,
carol's attempt to delete bob's message by its id fails with
`MessageNotFound` and leaves the state unchanged. -/
theorem delete_message_ownership_witness :
    (let msgW : UserMessage :=
       { id := 0, sender := "alice", recipient := "bob",
         body_enc := [], body_hash := [] }
     let stW : ServerInner := ⟨[("carol", "pw")], ["carol"], [msgW], 1⟩
     process_client (ServerCommand.DeleteMessage "carol" 0) stW =
       (Except.error AppError.MessageNotFound, stW)) :=
  (delete_message_ownership
      ⟨[("carol", "pw")], ["carol"],
       [{ id := 0, sender := "alice", recipient := "bob",
          body_enc := [], body_hash := [] }], 1⟩
      "carol" 0 (by decide)).1 (by decide)


/-- The users directory after one command: unchanged except for the
binding `sign_up` prepends on success. -/
theorem users_after_step (cmd : ServerCommand) (st : ServerInner) (u : String)
    (h : (st.users.lookup u).isSome) :
    (List.lookup u (process_client cmd st).2.users).isSome := by
  cases cmd with
  | SignUp username password =>
      by_cases hc : (st.users.lookup username).isSome
      · simp only [process_client, sign_up, if_pos hc]
        exact h
      · simp only [process_client, sign_up, if_neg hc]
        exact lookup_isSome_cons u username password st.users h
  | SignIn username password =>
      cases heq : st.users.lookup username with
      | none => simp only [process_client, sign_in, heq]; exact h
      | some stored_pass =>
          by_cases hp : stored_pass ≠ password
          · simp only [process_client, sign_in, heq, if_pos hp]
            exact h
          · simp only [process_client, sign_in, heq, if_neg hp]
            exact h
  | SignOut username => exact h
  | SendMessage sender recipient body =>
      by_cases hc : sender ∈ st.logged_in_users
      · simp only [process_client, send_message, if_pos hc]
        exact h
      · simp only [process_client, send_message, if_neg hc]
        exact h
  | FetchMessages username =>
      by_cases hc : username ∈ st.logged_in_users
      · simp only [process_client, fetch_messages, if_pos hc]
        exact h
      · simp only [process_client, fetch_messages, if_neg hc]
        exact h
  | DeleteMessage username msg_id =>
      by_cases hc : username ∈ st.logged_in_users
      · simp only [process_client, delete_message, if_pos hc]
        split <;> exact h
      · simp only [process_client, delete_message, if_neg hc]
        exact h

/-- Membership in the logged-in set after one command comes from prior
membership, except for a `SignIn` of that very username whose directory
lookup succeeded. -/
theorem logged_in_after_step (cmd : ServerCommand) (st : ServerInner) (u : String)
    (hu : u ∈ (process_client cmd st).2.logged_in_users) :
    u ∈ st.logged_in_users ∨
      ∃ password, cmd = ServerCommand.SignIn u password ∧ (st.users.lookup u).isSome := by
  cases cmd with
  | SignUp username password =>
      left
      by_cases hc : (st.users.lookup username).isSome
      · simpa only [process_client, sign_up, if_pos hc] using hu
      · simpa only [process_client, sign_up, if_neg hc] using hu
  | SignIn username password =>
      cases heq : st.users.lookup username with
      | none =>
          left
          simpa only [process_client, sign_in, heq] using hu
      | some stored_pass =>
          by_cases hp : stored_pass ≠ password
          · left
            simpa only [process_client, sign_in, heq, if_pos hp] using hu
          · simp only [process_client, sign_in, heq, if_neg hp] at hu
            rcases mem_of_mem_markActive username u st.logged_in_users hu with hv | hv
            · right
              exact ⟨password, by rw [hv], by rw [hv, heq]; rfl⟩
            · left
              exact hv
  | SignOut username =>
      left
      exact List.mem_of_mem_filter hu
  | SendMessage sender recipient body =>
      left
      by_cases hc : sender ∈ st.logged_in_users
      · simpa only [process_client, send_message, if_pos hc] using hu
      · simpa only [process_client, send_message, if_neg hc] using hu
  | FetchMessages username =>
      left
      by_cases hc : username ∈ st.logged_in_users
      · simpa only [process_client, fetch_messages, if_pos hc] using hu
      · simpa only [process_client, fetch_messages, if_neg hc] using hu
  | DeleteMessage username msg_id =>
      left
      by_cases hc : username ∈ st.logged_in_users
      · simp only [process_client, delete_message, if_pos hc] at hu
        split at hu <;> exact hu
      · simpa only [process_client, delete_message, if_neg hc] using hu

/-- C6: in every state reachable from the initial empty state by processed
commands, every username in the logged-in (authenticated) set is a key of
the users directory. -/
theorem session_registry_invariant (st : ServerInner) (h : Reachable st) :
    ∀ u ∈ st.logged_in_users, (st.users.lookup u).isSome := by
  induction h with
  | init =>
      intro u hu
      simp [ServerState.new] at hu
  | step cmd hr ih =>
      rename_i st'
      intro u hu
      rcases logged_in_after_step cmd st' u hu with hv | ⟨password, _, hsome⟩
      · exact users_after_step cmd st' u (ih u hv)
      · exact users_after_step cmd st' u hsome

/-- C6 witness: the state after `SignUp alice` then `SignIn alice` is
reachable, has "alice" logged in, and the invariant instantiated there
gives that "alice" is a directory key. -/
theorem session_registry_invariant_witness :
    (let stW := (process_client (ServerCommand.SignIn "alice" "pw")
        (process_client (ServerCommand.SignUp "alice" "pw") ServerState.new).2).2
     ("alice" ∈ stW.logged_in_users) ∧ (stW.users.lookup "alice").isSome) :=
  ⟨by decide,
   session_registry_invariant _
     (Reachable.step (ServerCommand.SignIn "alice" "pw")
       (Reachable.step (ServerCommand.SignUp "alice" "pw") Reachable.init))
     "alice" (by decide)⟩


/-- C7: for an active recipient the fetch never returns a command-level
error and never truncates: it succeeds with one entry per stored message
addressed to the recipient, in insertion (store) order — the i-th entry
carries the i-th such message's id — and an entry is the decode-error
marker exactly when that message's ciphertext fails to decrypt. -/
theorem fetch_fail_open (st : ServerInner) (username : String)
    (hact : username ∈ st.logged_in_users) :
    process_client (ServerCommand.FetchMessages username) st =
      (Except.ok (some (Output.fetched (fetch_results username st))), st) ∧
    (fetch_results username st).length =
      (st.messages.filter (fun m => m.recipient == username)).length ∧
    (∀ i, ((fetch_results username st).get? i).map entryId =
      ((st.messages.filter (fun m => m.recipient == username)).get? i).map
        UserMessage.id) ∧
    (∀ i, ((fetch_results username st).get? i).map isDecodeErr =
      ((st.messages.filter (fun m => m.recipient == username)).get? i).map
        (fun m => (Padlock.decrypt m.body_enc).isNone)) := by
  refine ⟨by simp [process_client, fetch_messages, hact], by simp [fetch_results], ?_, ?_⟩
  · intro i
    simp only [fetch_results, List.get?_map]
    cases (st.messages.filter (fun m => m.recipient == username)).get? i with
    | none => rfl
    | some m =>
        cases hdec : Padlock.decrypt m.body_enc <;>
          simp [fetchEntryOf, hdec, entryId]
  · intro i
    simp only [fetch_results, List.get?_map]
    cases (st.messages.filter (fun m => m.recipient == username)).get? i with
    | none => rfl
    | some m =>
        cases hdec : Padlock.decrypt m.body_enc <;>
          simp [fetchEntryOf, hdec, isDecodeErr]

/-- C7 witness: bob is active and holds two stored messages — one with an
undecryptable (too short) ciphertext and one well-formed — plus a message
for another user; the fetch succeeds and its first entry for bob is the
decode-error marker while the second is a decoded entry. -/
theorem fetch_fail_open_witness :
    (let corrupt : UserMessage :=
       { id := 0, sender := "alice", recipient := "bob", body_enc := [1, 2, 3],
         body_hash := [] }
     let good : UserMessage :=
       { id := 1, sender := "alice", recipient := "bob",
         body_enc := Padlock.encrypt (nonceOf 1) (strBytes "hi"),
         body_hash := Padlock.compute_hmac (strBytes "hi") }
     let other : UserMessage :=
       { id := 2, sender := "alice", recipient := "carol", body_enc := [],
         body_hash := [] }
     let stW : ServerInner := ⟨[("bob", "pw")], ["bob"], [corrupt, good, other], 3⟩
     process_client (ServerCommand.FetchMessages "bob") stW =
       (Except.ok (some (Output.fetched (fetch_results "bob" stW))), stW) ∧
     (fetch_results "bob" stW).length = 2 ∧
     ((fetch_results "bob" stW).get? 0).map isDecodeErr = some true ∧
     ((fetch_results "bob" stW).get? 1).map isDecodeErr = some false) := by
  refine ⟨(fetch_fail_open _ "bob" (by decide)).1, ?_, ?_, ?_⟩ <;> rfl

/-- The scripted end-to-end scenario state: `SignUp alice` → `SignUp bob`
→ `SignIn alice` → `SignIn bob` → `SendMessage alice→bob "hi"`. -/
def scenarioState : ServerInner :=
  (process_client (ServerCommand.SendMessage "alice" "bob" "hi")
    (process_client (ServerCommand.SignIn "bob" "pw")
      (process_client (ServerCommand.SignIn "alice" "pw")
        (process_client (ServerCommand.SignUp "bob" "pw")
          (process_client (ServerCommand.SignUp "alice" "pw") ServerState.new).2).2).2).2).2

/-- C1: the claimed round-trip `decrypt (encrypt P) = some P` fails.
`encrypt` resizes the plaintext buffer by 16 zero bytes *before* the
sealing call, which itself appends the tag, so decryption recovers the
plaintext followed by 16 spurious zero bytes — here shown at `P = "hi"`,
together with the general law the code actually satisfies at this nonce. -/
theorem roundtrip_code_bug :
    Padlock.decrypt (Padlock.encrypt (nonceOf 0) (strBytes "hi")) =
      some (strBytes "hi" ++ List.replicate 16 0) ∧
    Padlock.decrypt (Padlock.encrypt (nonceOf 0) (strBytes "hi")) ≠
      some (strBytes "hi") := by
  constructor
  · exact decrypt_encrypt (nonceOf 0) (strBytes "hi") (by rfl)
  · rw [decrypt_encrypt (nonceOf 0) (strBytes "hi") (by rfl)]
    decide

/-- C2: the honest-path scenario diverges from the claim.  After the
scripted sign-ups, sign-ins and `SendMessage alice→bob "hi"` (which does
succeed), `FetchMessages bob` returns exactly one entry with sender
"alice" — but its decoded body is the bytes of "hi" followed by sixteen
zero bytes (not "hi") and its stored-MAC verification fails, so the
tamper-warning marker *is* attached. -/
theorem honest_fetch_code_bug :
    (process_client (ServerCommand.SendMessage "alice" "bob" "hi")
        (process_client (ServerCommand.SignIn "bob" "pw")
          (process_client (ServerCommand.SignIn "alice" "pw")
            (process_client (ServerCommand.SignUp "bob" "pw")
              (process_client (ServerCommand.SignUp "alice" "pw")
                ServerState.new).2).2).2).2).1 =
      Except.ok (some (Output.text "Message sent")) ∧
    (process_client (ServerCommand.FetchMessages "bob") scenarioState).1 =
      Except.ok (some (Output.fetched
        [FetchEntry.decoded 0 "alice" (strBytes "hi" ++ List.replicate 16 0) false])) ∧
    strBytes "hi" ++ List.replicate 16 0 ≠ strBytes "hi" := by
  refine ⟨rfl, ?_, by decide⟩
  rfl
